import Mathlib

/-!
Verification of the username-location cache core

Shallow embedding of `src/server/app/main.py` of the
`twitter-account-location-in-username` repository: the cache store upsert
(`_upsert_location_stmt`), the lookup orchestrator (`check_username`), the
background refresh (`_refresh_location`), the explicit-set path
(`add_location`), and the sliding-window rate limiter (`rate_limit`) used by
the two metrics endpoints.

Timestamps are modelled as integers (seconds).  The external collaborators
`fetch_location_for_username` (the provider) and `normalize_country` (the
normalizer) live outside the core; they are passed as explicit parameters:
the outcome of a single provider call is an `Except Unit (Option String)`
(exception, no value, or a raw value) and the normalizer is an abstract
function `String → Option String`.
-/

namespace UsernameLocationCache

/-- One row of the `account_locations` table (`models.py`): the `location`
column is nullable, `fetched_at` is non-null.  The unique key (`username`)
is kept outside, as the key of the store. -/
structure CacheEntry where
  location : Option String
  fetchedAt : Int
deriving Repr, DecidableEq

/-- The cache store: a finite map from normalized username to its row,
modelled as an association list (the `username` column carries a uniqueness
constraint, and all access below is through the key). -/
abbrev Store := List (String × CacheEntry)

/-- Point lookup by normalized key (the `select ... where username == normalized`
in `check_username`). -/
def Store.get : Store → String → Option CacheEntry
  | [], _ => none
  | (k', e) :: rest, k => if k' = k then some e else Store.get rest k

/-- Embeds `_upsert_location_stmt` (main.py lines 62-71): an atomic
insert-on-conflict-update keyed by `username`; it overwrites both `location`
and `fetched_at` of an existing row, or inserts a new row.  The `location`
argument is a plain string (`str` in the source), never null. -/
def Store.upsert : Store → String → String → Int → Store
  | [], k, v, t => [(k, ⟨some v, t⟩)]
  | (k', e) :: rest, k, v, t =>
    if k' = k then (k, ⟨some v, t⟩) :: rest
    else (k', e) :: Store.upsert rest k v t

/-- Store states in which every row has a non-null `location`.  Every write
path of the core upserts a canonical (non-null) location string, so all
reachable stores satisfy this (see `storeInv_upsert`). -/
def StoreInv (s : Store) : Prop := ∀ p ∈ s, (p.2).location ≠ none

instance : DecidablePred StoreInv := fun s =>
  inferInstanceAs (Decidable (∀ p ∈ s, (p.2).location ≠ none))

theorem get_mem {s : Store} {k : String} {e : CacheEntry}
    (h : Store.get s k = some e) : (k, e) ∈ s := by
  induction s with
  | nil => simp [Store.get] at h
  | cons p rest ih =>
    obtain ⟨k', e'⟩ := p
    unfold Store.get at h
    split at h
    · rename_i hk
      cases h
      subst hk
      exact List.mem_cons_self _ _
    · exact List.mem_cons_of_mem _ (ih h)

theorem storeInv_get {s : Store} {k : String} {e : CacheEntry}
    (hs : StoreInv s) (h : Store.get s k = some e) : e.location ≠ none :=
  hs (k, e) (get_mem h)

theorem storeInv_nil : StoreInv [] := by
  intro p hp
  simp at hp

theorem storeInv_upsert {s : Store} (hs : StoreInv s) (k v : String) (t : Int) :
    StoreInv (Store.upsert s k v t) := by
  induction s with
  | nil =>
    intro p hp
    simp [Store.upsert] at hp
    subst hp
    simp
  | cons q rest ih =>
    obtain ⟨k', e'⟩ := q
    have hrest : StoreInv rest := fun p hp => hs p (List.mem_cons_of_mem _ hp)
    intro p hp
    unfold Store.upsert at hp
    split at hp
    · rcases List.mem_cons.mp hp with h | h
      · subst h; simp
      · exact hs p (List.mem_cons_of_mem _ h)
    · rcases List.mem_cons.mp hp with h | h
      · subst h
        exact hs (k', e') (List.mem_cons_self _ _)
      · exact ih hrest p h

theorem get_upsert_self (s : Store) (k v : String) (t : Int) :
    Store.get (Store.upsert s k v t) k = some ⟨some v, t⟩ := by
  induction s with
  | nil => simp [Store.upsert, Store.get]
  | cons p rest ih =>
    obtain ⟨k', e'⟩ := p
    by_cases hk : k' = k
    · subst hk
      simp [Store.upsert, Store.get]
    · simp [Store.upsert, Store.get, hk, ih]

theorem get_upsert_other (s : Store) (k v : String) (t : Int)
    (k' : String) (hk : k' ≠ k) :
    Store.get (Store.upsert s k v t) k' = Store.get s k' := by
  have hk2 : k ≠ k' := Ne.symm hk
  induction s with
  | nil => simp [Store.upsert, Store.get, hk2]
  | cons p rest ih =>
    obtain ⟨k0, e0⟩ := p
    by_cases h0 : k0 = k
    · subst h0
      simp [Store.upsert, Store.get, hk2]
    · simp only [Store.upsert, if_neg h0]
      by_cases h1 : k0 = k'
      · simp [Store.get, h1]
      · simp [Store.get, h1, ih]

theorem upsert_of_get_none {s : Store} {k : String} (h : Store.get s k = none)
    (v : String) (t : Int) :
    Store.upsert s k v t = s ++ [(k, ⟨some v, t⟩)] := by
  induction s with
  | nil => simp [Store.upsert]
  | cons p rest ih =>
    obtain ⟨k', e'⟩ := p
    unfold Store.get at h
    split at h
    · cases h
    · rename_i hk
      simp [Store.upsert, hk, ih h]

/-- C5: `upsert(k, v, t)` followed by `get(k)` returns an entry with value `v`
and fetchedAt `t`, regardless of the prior store state; the upsert inserts a
new row when none exists for `k` (here: appends it), leaves rows of all other
keys unchanged, and otherwise overwrites the value and
fetchedAt of the existing row (the `get` after `upsert` sees exactly `(v, t)`). -/
theorem upsert_then_get (s : Store) (k v : String) (t : Int) :
    Store.get (Store.upsert s k v t) k = some ⟨some v, t⟩ ∧
    (∀ k', k' ≠ k → Store.get (Store.upsert s k v t) k' = Store.get s k') ∧
    (Store.get s k = none → Store.upsert s k v t = s ++ [(k, ⟨some v, t⟩)]) :=
  ⟨get_upsert_self s k v t,
   fun k' hk => get_upsert_other s k v t k' hk,
   fun h => upsert_of_get_none h v t⟩

/-- Witness for C5 at a concrete prior state holding a row for the same key. -/
theorem upsert_then_get_witness :
    Store.get (Store.upsert [("alice", ⟨some "Canada", 3⟩)] "alice" "Japan" 9) "alice"
      = some ⟨some "Japan", 9⟩ ∧
    Store.get (Store.upsert [("alice", ⟨some "Canada", 3⟩)] "alice" "Japan" 9) "bob"
      = Store.get [("alice", ⟨some "Canada", 3⟩)] "bob" :=
  ⟨(upsert_then_get [("alice", ⟨some "Canada", 3⟩)] "alice" "Japan" 9).1,
   (upsert_then_get [("alice", ⟨some "Canada", 3⟩)] "alice" "Japan" 9).2.1 "bob"
     (by decide)⟩

/-- The Python `str.strip()` method as used on usernames (`a.strip()`,
`payload.username.strip()`): drop whitespace from both ends, modelled on the
underlying character list. -/
def pyStrip (s : String) : String :=
  ⟨((s.data.dropWhile Char.isWhitespace).reverse.dropWhile Char.isWhitespace).reverse⟩

/-- ASCII case folding of one character, as `str.lower()` acts on the ASCII
range usernames are drawn from (`String(50)` column, Twitter handles). -/
def lowerChar (c : Char) : Char :=
  if 'A' ≤ c ∧ c ≤ 'Z' then Char.ofNat (c.toNat + 32) else c

/-- The Python `str.lower()` method (`username.lower()`), on the character list. -/
def pyLower (s : String) : String := ⟨s.data.map lowerChar⟩

/-- The normalized key of a raw request username: strip then lowercase, as
`check_username` and `add_location` both do. -/
def normalizedKey (a : String) : String := pyLower (pyStrip a)

/-- The response body of `/check` and `/add` (`schemas.py`,
`LocationResponse`). -/
structure LocationResponse where
  username : String
  location : Option String
  cached : Bool
  lastChecked : Int
  expiresAt : Int
deriving Repr, DecidableEq

def exceptDecEq {ε α : Type} [DecidableEq ε] [DecidableEq α] :
    DecidableEq (Except ε α)
  | .error a, .error b =>
    if h : a = b then .isTrue (by rw [h])
    else .isFalse (by intro hc; cases hc; exact h rfl)
  | .error _, .ok _ => .isFalse (by intro hc; cases hc)
  | .ok _, .error _ => .isFalse (by intro hc; cases hc)
  | .ok a, .ok b =>
    if h : a = b then .isTrue (by rw [h])
    else .isFalse (by intro hc; cases hc; exact h rfl)

instance {ε α : Type} [DecidableEq ε] [DecidableEq α] :
    DecidableEq (Except ε α) := exceptDecEq

/-- The observable outcome of one `check_username` request: the HTTP result
(error status code, or a response body), the store state after the
synchronous writes of the request, the number of synchronous provider calls the request
performed, and the number of background refresh tasks it scheduled
(`asyncio.create_task`) without awaiting them. -/
structure CheckOutcome where
  result : Except Nat LocationResponse
  store : Store
  providerCalls : Nat
  refreshTasks : Nat
deriving Repr, DecidableEq

/-- The ABSENT tail of `check_username` (main.py lines 208-229): synchronous
provider call; exception → 502, no value → 404, normalization failure → 502
(nothing persisted in each case); otherwise upsert and serve the canonical
value with `cached=False`. -/
def absentLookup (normalize : String → Option String)
    (fetchResult : Except Unit (Option String)) (ttl now : Int)
    (s : Store) (username normalized : String) : CheckOutcome :=
  match fetchResult with
  | .error _ => ⟨.error 502, s, 1, 0⟩
  | .ok none => ⟨.error 404, s, 1, 0⟩
  | .ok (some raw) =>
    match normalize raw with
    | none => ⟨.error 502, s, 1, 0⟩
    | some canonical =>
      ⟨.ok ⟨username, some canonical, false, now, now + ttl⟩,
       Store.upsert s normalized canonical now, 1, 0⟩

/-- Embeds `check_username` (main.py lines 166-229).  `a` is the raw query value,
`s` the store at the time of the row read, `now` the request timestamp,
`ttl` the configured `cache_ttl`.  `fetchResult` is the outcome the provider
would produce for the synchronous call of this request (used only on the ABSENT
path).  Mirrors the source: strip, blank → 400; row read; `fresh` iff a row
exists and `now - fetched_at < ttl`; fresh → serve cached; else if the
location of the row is non-null → schedule one background refresh and serve the old row
with `cached=False` and expiry from the old `fetched_at`; else fall through
to the ABSENT path. -/
def check_username (normalize : String → Option String)
    (fetchResult : Except Unit (Option String)) (ttl now : Int)
    (s : Store) (a : String) : CheckOutcome :=
  let username := pyStrip a
  if username = "" then ⟨.error 400, s, 0, 0⟩
  else
    let normalized := pyLower username
    match Store.get s normalized with
    | some e =>
      if now - e.fetchedAt < ttl then
        ⟨.ok ⟨username, e.location, true, e.fetchedAt, e.fetchedAt + ttl⟩, s, 0, 0⟩
      else
        match e.location with
        | some loc =>
          ⟨.ok ⟨username, some loc, false, e.fetchedAt, e.fetchedAt + ttl⟩, s, 0, 1⟩
        | none => absentLookup normalize fetchResult ttl now s username normalized
    | none => absentLookup normalize fetchResult ttl now s username normalized

/-- Embeds `_refresh_location` (main.py lines 74-93), the background refresh body:
its only observable effect is on the store, which it returns.  On provider
exception, on provider returning no value, and on normalization failure it
terminates without writing; only on success does it upsert with the
timestamp taken at the start of the refresh. -/
def refresh_location (normalize : String → Option String)
    (fetchResult : Except Unit (Option String)) (now : Int)
    (s : Store) (normalized : String) : Store :=
  match fetchResult with
  | .error _ => s
  | .ok none => s
  | .ok (some newLocation) =>
    match normalize newLocation with
    | none => s
    | some canonical => Store.upsert s normalized canonical now

/-- The observable outcome of one `add_location` request: HTTP result and
resulting store. -/
structure AddOutcome where
  result : Except Nat LocationResponse
  store : Store
deriving Repr, DecidableEq

/-- Embeds `add_location` (main.py lines 232-259), the explicit-set path: strip,
blank username → 400; `normalize_country(payload.location)` failing → 422
with the store untouched; otherwise unconditional upsert of the canonical
value at `now`, and a 201 response whose `location` field echoes the raw
`payload.location` (not the canonical value) with `cached=False`.
Modelled from the spec: `normalize_country` lives in `app/countries.py`,
which is not part of the sources here; per the spec it maps free-form
strings to a fixed allow-list, so a missing (`None`) location cannot
normalize — modelled as `Option.bind`. -/
def add_location (normalize : String → Option String) (ttl now : Int)
    (s : Store) (pUsername : String) (pLocation : Option String) : AddOutcome :=
  let username := pyStrip pUsername
  if username = "" then ⟨.error 400, s⟩
  else
    let normalized := pyLower username
    match pLocation.bind normalize with
    | none => ⟨.error 422, s⟩
    | some canonical =>
      ⟨.ok ⟨username, pLocation, false, now, now + ttl⟩,
       Store.upsert s normalized canonical now⟩

/-- Width of the rate-limit window in seconds (main.py line 96). -/
def WINDOW_SECONDS : Int := 60

/-- Admission limit per window (main.py line 97). -/
def WINDOW_LIMIT : Nat := 5

/-- The front-eviction loop of `rate_limit` (main.py lines 110-111):
`while window and window[0] <= now - WINDOW_SECONDS: window.popleft()`. -/
def evictExpired : List Int → Int → List Int
  | [], _ => []
  | t :: rest, cutoff => if t ≤ cutoff then evictExpired rest cutoff else t :: rest

/-- One `rate_limit` call on the window of a single key (main.py lines 106-114):
evict expired timestamps from the front, then reject (429) if the window is
full, else append `now` and admit.  Returns the admission decision and the
window as the deque is left after the call. -/
def rateLimitStep (w : List Int) (now : Int) : Bool × List Int :=
  if WINDOW_LIMIT ≤ (evictExpired w (now - WINDOW_SECONDS)).length
  then (false, evictExpired w (now - WINDOW_SECONDS))
  else (true, evictExpired w (now - WINDOW_SECONDS) ++ [now])

/-- The `_request_log` of the limiter: a `defaultdict(deque)` keyed by the
rate-limit key, here a total map with `[]` for absent keys. -/
abbrev RateLog := String → List Int

/-- One `rate_limit(key)` call against the whole per-key log: the deque
of the key is mutated in place, so the log keeps the window `rateLimitStep`
leaves behind whether the call is admitted or rejected. -/
def rateLimitCall (log : RateLog) (key : String) (now : Int) : Bool × RateLog :=
  ((rateLimitStep (log key) now).1,
   fun k => if k = key then (rateLimitStep (log key) now).2 else log k)

/-- The rate-limit dependency of `GET /metrics` (main.py line 261):
`Depends(rate_limit)` with the default key `"metrics"`. -/
def metricsRateLimit (log : RateLog) (now : Int) : Bool × RateLog :=
  rateLimitCall log "metrics" now

/-- The rate-limit dependency of `GET /metrics.json` (main.py line 280):
also `Depends(rate_limit)` with the default key `"metrics"`. -/
def metricsJsonRateLimit (log : RateLog) (now : Int) : Bool × RateLog :=
  rateLimitCall log "metrics" now

/-- Which of the two metrics endpoints a request hits. -/
inductive MetricsEndpoint
  | metrics
  | metricsJson
deriving Repr, DecidableEq

/-- The rate-limit dependency a request to the given endpoint goes
through. -/
def endpointRateLimit : MetricsEndpoint → RateLog → Int → Bool × RateLog
  | .metrics, log, t => metricsRateLimit log t
  | .metricsJson, log, t => metricsJsonRateLimit log t

/-- Run a sequence of metrics requests (each against the rate-limit
dependency of its endpoint) all at time `t`, threading the limiter state, and
count how many are admitted. -/
def runMetricsCalls : List MetricsEndpoint → Int → RateLog → Nat
  | [], _, _ => 0
  | e :: rest, t, log =>
    (if (endpointRateLimit e log t).1 then 1 else 0) +
      runMetricsCalls rest t (endpointRateLimit e log t).2

theorem checkFreshAux (normalize : String → Option String)
    (fetchResult : Except Unit (Option String)) (ttl now : Int)
    (s : Store) (a : String) (e : CacheEntry)
    (hu : pyStrip a ≠ "")
    (he : Store.get s (normalizedKey a) = some e)
    (hf : now - e.fetchedAt < ttl) :
    check_username normalize fetchResult ttl now s a =
      ⟨.ok ⟨pyStrip a, e.location, true, e.fetchedAt, e.fetchedAt + ttl⟩,
       s, 0, 0⟩ := by
  unfold normalizedKey at he
  simp [check_username, hu, he, hf]

/-- C6: for a lookup whose entry exists with `now - fetchedAt < ttl`, the
request performs zero provider calls and returns the stored value with
`cached=true` and `expires_at = fetchedAt + ttl` (and it schedules no
refresh and leaves the store unchanged). -/
theorem check_fresh_serves_cached (normalize : String → Option String)
    (fetchResult : Except Unit (Option String)) (ttl now : Int)
    (s : Store) (a : String) (e : CacheEntry)
    (hu : pyStrip a ≠ "")
    (he : Store.get s (normalizedKey a) = some e)
    (hf : now - e.fetchedAt < ttl) :
    check_username normalize fetchResult ttl now s a =
      ⟨.ok ⟨pyStrip a, e.location, true, e.fetchedAt, e.fetchedAt + ttl⟩,
       s, 0, 0⟩ :=
  checkFreshAux normalize fetchResult ttl now s a e hu he hf

/-- Witness for C6: a fresh entry for key "alice", looked up as " Alice",
one hour (3600 s) after the fetch with the default 7-day ttl (604800 s). -/
theorem check_fresh_serves_cached_witness :
    check_username (fun r => if r = "Canada" then some "Canada" else none)
        (.error ()) 604800 3600 [("alice", ⟨some "Canada", 0⟩)] " Alice" =
      ⟨.ok ⟨"Alice", some "Canada", true, 0, 604800⟩,
       [("alice", ⟨some "Canada", 0⟩)], 0, 0⟩ :=
  check_fresh_serves_cached _ _ 604800 3600 _ " Alice" ⟨some "Canada", 0⟩
    (by decide) (by decide) (by decide)

/-- C1: for a lookup whose entry exists but is stale
(`¬ (now - fetchedAt < ttl)`), on any store all of whose rows carry a
non-null location (which every write path of the core guarantees, see
`storeInv_upsert`), the request serves the old stored value immediately with
`cached=false` and `expires_at` computed from the old `fetchedAt`
(`fetchedAt + ttl`), performs no synchronous provider call, leaves the store
unchanged, and schedules exactly one background refresh task. -/
theorem check_stale_serves_then_refreshes (normalize : String → Option String)
    (fetchResult : Except Unit (Option String)) (ttl now : Int)
    (s : Store) (a : String) (e : CacheEntry)
    (hinv : StoreInv s)
    (hu : pyStrip a ≠ "")
    (he : Store.get s (normalizedKey a) = some e)
    (hf : ¬ now - e.fetchedAt < ttl) :
    check_username normalize fetchResult ttl now s a =
      ⟨.ok ⟨pyStrip a, e.location, false, e.fetchedAt, e.fetchedAt + ttl⟩,
       s, 0, 1⟩ := by
  obtain ⟨loc, hloc⟩ := Option.ne_none_iff_exists'.mp (storeInv_get hinv he)
  unfold normalizedKey at he
  simp [check_username, hu, he, hf, hloc]

/-- Witness for C1: a stale entry for key "alice" (fetched at 0, looked up
8 days = 691200 s later with the default 7-day ttl). -/
theorem check_stale_serves_then_refreshes_witness :
    check_username (fun r => if r = "Canada" then some "Canada" else none)
        (.error ()) 604800 691200 [("alice", ⟨some "Canada", 0⟩)] "Alice" =
      ⟨.ok ⟨"Alice", some "Canada", false, 0, 604800⟩,
       [("alice", ⟨some "Canada", 0⟩)], 0, 1⟩ :=
  check_stale_serves_then_refreshes _ _ 604800 691200 _ "Alice"
    ⟨some "Canada", 0⟩ (by decide) (by decide) (by decide) (by decide)

/-- C2: for a lookup with no usable cache entry (the ABSENT path): a
provider exception surfaces an UpstreamError (502) with nothing persisted; a
raw value whose normalization fails surfaces an UpstreamError (502) with
nothing persisted; a successfully normalized value is upserted as
`upsert(key, canonicalValue, now)` and served with `cached=false`. -/
theorem check_absent_path (normalize : String → Option String)
    (fetchResult : Except Unit (Option String)) (ttl now : Int)
    (s : Store) (a : String)
    (hu : pyStrip a ≠ "")
    (he : Store.get s (normalizedKey a) = none) :
    (∀ u, fetchResult = .error u →
      check_username normalize fetchResult ttl now s a = ⟨.error 502, s, 1, 0⟩) ∧
    (∀ raw, fetchResult = .ok (some raw) → normalize raw = none →
      check_username normalize fetchResult ttl now s a = ⟨.error 502, s, 1, 0⟩) ∧
    (∀ raw canonical, fetchResult = .ok (some raw) → normalize raw = some canonical →
      check_username normalize fetchResult ttl now s a =
        ⟨.ok ⟨pyStrip a, some canonical, false, now, now + ttl⟩,
         Store.upsert s (normalizedKey a) canonical now, 1, 0⟩) := by
  unfold normalizedKey at he ⊢
  refine ⟨fun u hf => ?_, fun raw hf hn => ?_, fun raw canonical hf hn => ?_⟩
  · subst hf
    simp [check_username, hu, he, absentLookup]
  · subst hf
    simp [check_username, hu, he, absentLookup, hn]
  · subst hf
    simp [check_username, hu, he, absentLookup, hn]

/-- Witness for C2: a never-seen key whose provider call returns
"United States", normalized to itself, is upserted and served uncached. -/
theorem check_absent_path_witness :
    check_username (fun r => if r = "United States" then some "United States" else none)
        (.ok (some "United States")) 604800 5 [] "Alice" =
      ⟨.ok ⟨"Alice", some "United States", false, 5, 604805⟩,
       [("alice", ⟨some "United States", 5⟩)], 1, 0⟩ :=
  (check_absent_path (fun r => if r = "United States" then some "United States" else none)
      (.ok (some "United States")) 604800 5 [] "Alice"
      (by decide) (by decide)).2.2 "United States" "United States" rfl (by decide)

/-- C7: a lookup surfaces NotFound (404) only when no cache entry exists for
the key and the provider returns no value; on a store all of whose rows have
a non-null location (true of all reachable stores, see `storeInv_upsert`), a
key with an existing entry never yields NotFound. -/
theorem check_notfound_only_when_absent (normalize : String → Option String)
    (fetchResult : Except Unit (Option String)) (ttl now : Int)
    (s : Store) (a : String)
    (hinv : StoreInv s) :
    ((check_username normalize fetchResult ttl now s a).result = .error 404 →
      Store.get s (normalizedKey a) = none ∧ fetchResult = .ok none) ∧
    (∀ e, Store.get s (normalizedKey a) = some e →
      (check_username normalize fetchResult ttl now s a).result ≠ .error 404) := by
  unfold normalizedKey
  constructor
  · intro h404
    by_cases hu : pyStrip a = ""
    · simp [check_username, hu] at h404
    · rcases hg : Store.get s (pyLower (pyStrip a)) with _ | e
      · refine ⟨rfl, ?_⟩
        rcases hf : fetchResult with u | ov
        · subst hf
          simp [check_username, hu, hg, absentLookup] at h404
        · rcases ov with _ | raw
          · rfl
          · subst hf
            rcases hn : normalize raw with _ | c
            · simp [check_username, hu, hg, absentLookup, hn] at h404
            · simp [check_username, hu, hg, absentLookup, hn] at h404
      · exfalso
        obtain ⟨loc, hloc⟩ := Option.ne_none_iff_exists'.mp (storeInv_get hinv hg)
        by_cases hfr : now - e.fetchedAt < ttl
        · simp [check_username, hu, hg, hfr] at h404
        · simp [check_username, hu, hg, hfr, hloc] at h404
  · intro e hg h404
    by_cases hu : pyStrip a = ""
    · simp [check_username, hu] at h404
    · obtain ⟨loc, hloc⟩ := Option.ne_none_iff_exists'.mp (storeInv_get hinv hg)
      by_cases hfr : now - e.fetchedAt < ttl
      · simp [check_username, hu, hg, hfr] at h404
      · simp [check_username, hu, hg, hfr, hloc] at h404

/-- Witness for C7: on a store holding a stale entry for "alice", a lookup
of "alice" does not produce 404 even though the provider has no value. -/
theorem check_notfound_only_when_absent_witness :
    (check_username (fun _ => none) (.ok none) 604800 999999999
        [("alice", ⟨some "Canada", 0⟩)] "alice").result ≠ .error 404 :=
  (check_notfound_only_when_absent (fun _ => none) (.ok none) 604800 999999999
      [("alice", ⟨some "Canada", 0⟩)] "alice" (by decide)).2
    ⟨some "Canada", 0⟩ (by decide)

/-- C4: the background refresh never writes on failure — on a provider
exception, on a provider returning no value, and on a value that fails
normalization it terminates leaving the whole store (hence the entry of the key
and every other entry) unchanged; only on successful normalization does it
perform `upsert(key, canonicalValue, refreshTimestamp)`. -/
theorem refresh_frame (normalize : String → Option String)
    (fetchResult : Except Unit (Option String)) (now : Int)
    (s : Store) (normalized : String) :
    (∀ u, fetchResult = .error u →
      refresh_location normalize fetchResult now s normalized = s) ∧
    (fetchResult = .ok none →
      refresh_location normalize fetchResult now s normalized = s) ∧
    (∀ raw, fetchResult = .ok (some raw) → normalize raw = none →
      refresh_location normalize fetchResult now s normalized = s) ∧
    (∀ raw canonical, fetchResult = .ok (some raw) →
      normalize raw = some canonical →
      refresh_location normalize fetchResult now s normalized =
        Store.upsert s normalized canonical now) := by
  refine ⟨fun u hf => ?_, fun hf => ?_, fun raw hf hn => ?_,
    fun raw canonical hf hn => ?_⟩
  · subst hf; rfl
  · subst hf; rfl
  · subst hf; simp [refresh_location, hn]
  · subst hf; simp [refresh_location, hn]

/-- Witness for C4: a failing refresh (provider exception) leaves a concrete
one-row store exactly as it was. -/
theorem refresh_frame_witness :
    refresh_location (fun _ => none) (.error ()) 7
        [("alice", ⟨some "Canada", 0⟩)] "alice" =
      [("alice", ⟨some "Canada", 0⟩)] :=
  (refresh_frame (fun _ => none) (.error ()) 7
      [("alice", ⟨some "Canada", 0⟩)] "alice").1 () rfl

/-- C8: the explicit-set path rejects a location that fails normalization
with a validation error (422) and an untouched store; when normalization
succeeds it unconditionally upserts the canonical value at the current
timestamp — whatever entry may already exist — and responds with
`cached=false`. -/
theorem add_location_validates_then_upserts (normalize : String → Option String)
    (ttl now : Int) (s : Store) (pUsername : String) (pLocation : Option String)
    (hu : pyStrip pUsername ≠ "") :
    (pLocation.bind normalize = none →
      add_location normalize ttl now s pUsername pLocation = ⟨.error 422, s⟩) ∧
    (∀ raw canonical, pLocation = some raw → normalize raw = some canonical →
      add_location normalize ttl now s pUsername pLocation =
        ⟨.ok ⟨pyStrip pUsername, pLocation, false, now, now + ttl⟩,
         Store.upsert s (normalizedKey pUsername) canonical now⟩) := by
  unfold normalizedKey
  constructor
  · intro hn
    simp [add_location, hu, hn]
  · intro raw canonical hl hn
    subst hl
    simp [add_location, hu, hn]

/-- Witness for C8: "Atlantis" is not on the allow-list, so the explicit set
is rejected with 422 and the store (holding an entry for another key) is
unchanged. -/
theorem add_location_validates_then_upserts_witness :
    add_location (fun r => if r = "Canada" then some "Canada" else none)
        604800 10 [("bob", ⟨some "Canada", 1⟩)] "Alice" (some "Atlantis") =
      ⟨.error 422, [("bob", ⟨some "Canada", 1⟩)]⟩ :=
  (add_location_validates_then_upserts
      (fun r => if r = "Canada" then some "Canada" else none)
      604800 10 [("bob", ⟨some "Canada", 1⟩)] "Alice" (some "Atlantis")
      (by decide)).1 (by decide)

/-- C9: on a successful explicit set, the `location` field of the response echoes
the raw caller-supplied string while the store receives the canonical value;
an immediate subsequent lookup of the same username therefore returns the
canonical value, so whenever `normalize` maps the input to a different
canonical string, the explicit-set response differs from what every
subsequent lookup returns. -/
theorem add_location_echoes_raw_value (normalize : String → Option String)
    (ttl now : Int) (s : Store) (pUsername : String) (raw canonical : String)
    (hu : pyStrip pUsername ≠ "")
    (hn : normalize raw = some canonical)
    (httl : 0 < ttl) :
    (add_location normalize ttl now s pUsername (some raw)).result =
      .ok ⟨pyStrip pUsername, some raw, false, now, now + ttl⟩ ∧
    Store.get (add_location normalize ttl now s pUsername (some raw)).store
        (normalizedKey pUsername) = some ⟨some canonical, now⟩ ∧
    (∀ fetchResult2, (check_username normalize fetchResult2 ttl now
        (add_location normalize ttl now s pUsername (some raw)).store
        pUsername).result =
      .ok ⟨pyStrip pUsername, some canonical, true, now, now + ttl⟩) ∧
    (raw ≠ canonical → ∀ fetchResult2,
      (add_location normalize ttl now s pUsername (some raw)).result ≠
        (check_username normalize fetchResult2 ttl now
          (add_location normalize ttl now s pUsername (some raw)).store
          pUsername).result) := by
  have hadd : add_location normalize ttl now s pUsername (some raw) =
      ⟨.ok ⟨pyStrip pUsername, some raw, false, now, now + ttl⟩,
       Store.upsert s (normalizedKey pUsername) canonical now⟩ := by
    unfold normalizedKey
    simp [add_location, hu, hn]
  have hget : Store.get (add_location normalize ttl now s pUsername (some raw)).store
      (normalizedKey pUsername) = some ⟨some canonical, now⟩ := by
    rw [hadd]
    exact get_upsert_self s (normalizedKey pUsername) canonical now
  have hfresh : now - (⟨some canonical, now⟩ : CacheEntry).fetchedAt < ttl := by
    simp
    omega
  have hlook : ∀ fetchResult2, (check_username normalize fetchResult2 ttl now
      (add_location normalize ttl now s pUsername (some raw)).store
      pUsername).result =
      .ok ⟨pyStrip pUsername, some canonical, true, now, now + ttl⟩ := by
    intro fetchResult2
    rw [checkFreshAux normalize fetchResult2 ttl now _ pUsername
      ⟨some canonical, now⟩ hu hget hfresh]
  refine ⟨by rw [hadd], hget, hlook, fun hne fetchResult2 => ?_⟩
  rw [hlook fetchResult2, hadd]
  simp

/-- Witness for C9: setting "alice" to raw "canada" stores the canonical
"Canada"; the explicit-set response echoes "canada" while the immediate
lookup returns "Canada". -/
theorem add_location_echoes_raw_value_witness :
    (add_location (fun r => if pyLower r = "canada" then some "Canada" else none)
        604800 10 [] "Alice" (some "canada")).result =
      .ok ⟨"Alice", some "canada", false, 10, 604810⟩ ∧
    (∀ fetchResult2, (check_username
        (fun r => if pyLower r = "canada" then some "Canada" else none)
        fetchResult2 604800 10
        (add_location (fun r => if pyLower r = "canada" then some "Canada" else none)
          604800 10 [] "Alice" (some "canada")).store "Alice").result =
      .ok ⟨"Alice", some "Canada", true, 10, 604810⟩) := by
  have h := add_location_echoes_raw_value
    (fun r => if pyLower r = "canada" then some "Canada" else none)
    604800 10 [] "Alice" "canada" "Canada" (by decide) (by decide) (by decide)
  exact ⟨h.1, h.2.2.1⟩

theorem evictExpired_length_le (w : List Int) (cutoff : Int) :
    (evictExpired w cutoff).length ≤ w.length := by
  induction w with
  | nil => simp [evictExpired]
  | cons t rest ih =>
    unfold evictExpired
    split
    · exact le_trans ih (by simp)
    · simp

theorem evictExpired_eq_or_shorter (w : List Int) (cutoff : Int) :
    evictExpired w cutoff = w ∨ (evictExpired w cutoff).length < w.length := by
  induction w with
  | nil => left; rfl
  | cons t rest ih =>
    unfold evictExpired
    split
    · right
      exact lt_of_le_of_lt (evictExpired_length_le rest cutoff) (by simp)
    · left; rfl

theorem evictExpired_all_gt {w : List Int} {cutoff : Int}
    (hsorted : List.Pairwise (fun x y => x ≤ y) w) :
    ∀ t ∈ evictExpired w cutoff, cutoff < t := by
  induction w with
  | nil => simp [evictExpired]
  | cons t rest ih =>
    rcases List.pairwise_cons.mp hsorted with ⟨hhead, htail⟩
    unfold evictExpired
    split
    · exact ih htail
    · rename_i hgt
      intro x hx
      rcases List.mem_cons.mp hx with h | h
      · subst h; omega
      · have := hhead x h
        omega

theorem evictExpired_full_id {w : List Int} {cutoff : Int}
    (hlen : w.length ≤ WINDOW_LIMIT)
    (hfull : WINDOW_LIMIT ≤ (evictExpired w cutoff).length) :
    evictExpired w cutoff = w := by
  rcases evictExpired_eq_or_shorter w cutoff with h | h
  · exact h
  · omega

/-- C3: one `rate_limit` admission check on the window `w` of a key (insertion
ordered, length at most the limit — both invariants of windows the limiter
itself builds): all timestamps `≤ now - W` are evicted from the front and
every timestamp surviving the call is `> now - W`; if the length of the evicted
window is below the limit, `now` is appended and the call admitted;
otherwise the call is rejected with the window left exactly as it was; and
at the instant an admission is granted the length of the window is at most
`L = 5` (with `W = 60` s). -/
theorem rate_limit_sliding_window (w : List Int) (now : Int)
    (hsorted : List.Pairwise (fun x y => x ≤ y) w)
    (hlen : w.length ≤ WINDOW_LIMIT) :
    (∀ t ∈ (rateLimitStep w now).2, now - WINDOW_SECONDS < t) ∧
    ((evictExpired w (now - WINDOW_SECONDS)).length < WINDOW_LIMIT →
      rateLimitStep w now =
        (true, evictExpired w (now - WINDOW_SECONDS) ++ [now])) ∧
    (WINDOW_LIMIT ≤ (evictExpired w (now - WINDOW_SECONDS)).length →
      rateLimitStep w now = (false, w)) ∧
    ((rateLimitStep w now).1 = true →
      (rateLimitStep w now).2.length ≤ WINDOW_LIMIT) := by
  refine ⟨?_, fun hlt => ?_, fun hge => ?_, fun hadm => ?_⟩
  · intro t ht
    unfold rateLimitStep at ht
    split at ht
    · exact evictExpired_all_gt hsorted t ht
    · simp only at ht
      rcases List.mem_append.mp ht with h | h
      · exact evictExpired_all_gt hsorted t h
      · have ht2 : t = now := by simpa using h
        subst ht2
        unfold WINDOW_SECONDS
        omega
  · unfold rateLimitStep
    rw [if_neg (by omega)]
  · unfold rateLimitStep
    rw [if_pos hge, evictExpired_full_id hlen hge]
  · unfold rateLimitStep at hadm ⊢
    split at hadm <;> rename_i hc
    · simp at hadm
    · rw [if_neg hc]
      simp only [List.length_append, List.length_singleton]
      omega

/-- Witness for C3: window `[10, 20, 30, 40, 50]` (full, sorted) at
`now = 70`: the timestamp 10 is expired (`10 ≤ 70 - 60`), so the call is
admitted and the window becomes `[20, 30, 40, 50, 70]`. -/
theorem rate_limit_sliding_window_witness :
    rateLimitStep [10, 20, 30, 40, 50] 70 = (true, [20, 30, 40, 50, 70]) :=
  (rate_limit_sliding_window [10, 20, 30, 40, 50] 70
      (by decide) (by decide)).2.1 (by decide)

theorem runMetricsCalls_from_replicate (es : List MetricsEndpoint) (t : Int)
    (k : Nat) (hk : k ≤ WINDOW_LIMIT) (log : RateLog)
    (hlog : log "metrics" = List.replicate k t) :
    runMetricsCalls es t log = min es.length (WINDOW_LIMIT - k) := by
  induction es generalizing k log with
  | nil => simp [runMetricsCalls]
  | cons e rest ih =>
    have hevict : evictExpired (List.replicate k t) (t - WINDOW_SECONDS) =
        List.replicate k t := by
      cases k with
      | zero => rfl
      | succ n =>
        rw [List.replicate_succ]
        unfold evictExpired
        rw [if_neg (by unfold WINDOW_SECONDS; omega)]
    have hstep : rateLimitCall log "metrics" t =
        (if WINDOW_LIMIT ≤ k then (false, log)
         else (true, fun key => if key = "metrics"
           then List.replicate (k + 1) t else log key)) := by
      unfold rateLimitCall rateLimitStep
      rw [hlog, hevict, List.length_replicate]
      by_cases hfull : WINDOW_LIMIT ≤ k
      · rw [if_pos hfull, if_pos hfull]
        refine Prod.ext rfl ?_
        funext key
        dsimp only
        by_cases hkey : key = "metrics"
        · rw [if_pos hkey, hkey, hlog]
        · rw [if_neg hkey]
      · rw [if_neg hfull, if_neg hfull]
        refine Prod.ext rfl ?_
        funext key
        dsimp only
        by_cases hkey : key = "metrics"
        · rw [if_pos hkey, if_pos hkey, List.replicate_succ']
        · rw [if_neg hkey, if_neg hkey]
    have hcall : endpointRateLimit e log t = rateLimitCall log "metrics" t := by
      cases e <;> rfl
    unfold runMetricsCalls
    rw [hcall, hstep]
    by_cases hfull : WINDOW_LIMIT ≤ k
    · rw [if_pos hfull]
      dsimp only
      rw [ih k hk log hlog]
      have hz : WINDOW_LIMIT - k = 0 := by omega
      rw [hz]
      simp
    · rw [if_neg hfull]
      dsimp only
      rw [ih (k + 1) (by omega)
        (fun key => if key = "metrics" then List.replicate (k + 1) t else log key)
        (by simp)]
      simp only [eq_self_iff_true, if_true, List.length_cons]
      unfold WINDOW_LIMIT at hfull ⊢
      omega

/-- C10: `/metrics` and `/metrics.json` are admitted against one and the
same rate-limit window (both rate-limit dependencies are the limiter at its
default key "metrics"), so starting from a fresh limiter any burst of
requests spread over the two endpoints in any mix gets at most
`L = 5` admissions combined — the admitted count is `min n 5` over the two
endpoints together, not per endpoint. -/
theorem metrics_endpoints_share_window :
    (∀ log now, metricsRateLimit log now = metricsJsonRateLimit log now) ∧
    (∀ (es : List MetricsEndpoint) (t : Int),
      runMetricsCalls es t (fun _ => []) = min es.length WINDOW_LIMIT) := by
  refine ⟨fun log now => rfl, fun es t => ?_⟩
  have h := runMetricsCalls_from_replicate es t 0 (by omega) (fun _ => []) rfl
  simpa using h

end UsernameLocationCache
